import Mathlib

set_option autoImplicit false

namespace Imbi

/-! Shallow embedding of the imbi-api component update/consistency engine:
the component record handler (`imbi/endpoints/components/handlers.py`), the
pagination tokens and collection query (`imbi/endpoints/components.py`), and
the project aggregate loader (`imbi/models.py`). -/

/-- Scalar JSON values, as they appear in a component's field dictionary. -/
inductive JValue where
  | jnull
  | jstr (s : String)
  | jnum (n : Int)
  | jbool (b : Bool)
  deriving DecidableEq, Repr

/-- A Python dict of field name to value, in insertion order (keys unique). -/
abbrev Dict := List (String × JValue)

/-- Dictionary lookup: `d[k]`, first matching key. -/
def jlookup : Dict → String → Option JValue
  | [], _ => none
  | (k', v) :: rest, k => if k' = k then some v else jlookup rest k

/-- Dictionary assignment `d[k] = v`: replaces in place if the key is
present (Python dicts keep the original position), else appends. -/
def dset : Dict → String → JValue → Dict
  | [], k, v => [(k, v)]
  | (k', v') :: rest, k, v =>
    if k' = k then (k, v) :: rest else (k', v') :: dset rest k v

/-- Dictionary deletion `del d[k]`. -/
def dremove (d : Dict) (k : String) : Dict :=
  d.filter (fun p => p.1 != k)

/-- The keys of a dictionary, in order. -/
def dkeys (d : Dict) : List String :=
  d.map Prod.fst

/-- One JSON-patch operation addressing a top-level field of the snapshot
dictionary (RFC 6902 semantics as implemented by the `jsonpatch` library). -/
inductive PatchOp where
  | add (path : String) (value : JValue)
  | remove (path : String)
  | replace (path : String) (value : JValue)
  | move (fromPath path : String)
  | copy (fromPath path : String)
  | test (path : String) (value : JValue)
  deriving DecidableEq, Repr

/-- Apply a single patch operation; `none` is a structural failure
(`jsonpatch` raises `JsonPatchException` / `JsonPointerException`). -/
def applyOp (d : Dict) : PatchOp → Option Dict
  | .add k v => some (dset d k v)
  | .remove k =>
    match jlookup d k with
    | some _ => some (dremove d k)
    | none => none
  | .replace k v =>
    match jlookup d k with
    | some _ => some (dset d k v)
    | none => none
  | .move kf kt =>
    match jlookup d kf with
    | some v => some (dset (dremove d kf) kt v)
    | none => none
  | .copy kf kt =>
    match jlookup d kf with
    | some v => some (dset d kt v)
    | none => none
  | .test k v =>
    match jlookup d k with
    | some v' => if v' = v then some d else none
    | none => none

/-- Apply an operation sequence atomically (`patch.apply(original_dict)`):
the first failing operation fails the whole application. -/
def applyPatch (d : Dict) : List PatchOp → Option Dict
  | [] => some d
  | op :: rest =>
    match applyOp d op with
    | some d' => applyPatch d' rest
    | none => none

/-- The component status enum (`ComponentStatus` in `components.py`). -/
inductive ComponentStatus where
  | active
  | deprecated
  | forbidden
  deriving DecidableEq, Repr

/-- String value of a status, as stored and dumped. -/
def ComponentStatus.toStr : ComponentStatus → String
  | .active => "Active"
  | .deprecated => "Deprecated"
  | .forbidden => "Forbidden"

/-- Parse a status string. -/
def statusOfString (s : String) : Option ComponentStatus :=
  if s = "Active" then some .active
  else if s = "Deprecated" then some .deprecated
  else if s = "Forbidden" then some .forbidden
  else none

/-- The `Component` pydantic model: package_url (pattern `^pkg:`), name,
status, icon_class, optional active_version (its version-range rendered as a
string; `imbi.semver` is outside the embedded sources), optional home_page.
Fields are listed in the model's declaration order. -/
structure Component where
  package_url : String
  name : String
  status : ComponentStatus
  icon_class : String
  active_version : Option String
  home_page : Option String
  deriving DecidableEq, Repr

/-- JSON value of an optional string field. -/
def optJStr : Option String → JValue
  | none => .jnull
  | some s => .jstr s

/-- The pydantic `model_dump()` of a component: the six fields in
declaration order. -/
def Component.dump (c : Component) : Dict :=
  [("package_url", .jstr c.package_url),
   ("name", .jstr c.name),
   ("status", .jstr c.status.toStr),
   ("icon_class", .jstr c.icon_class),
   ("active_version", optJStr c.active_version),
   ("home_page", optJStr c.home_page)]

/-- The `^pkg:` regex anchor of the `package_url` field, as a character
test (structural, so concrete executions reduce). -/
def matchesPkg (s : String) : Bool :=
  ("pkg:".data).isPrefixOf s.data

/-- Validation of the `package_url` field: a string matching `^pkg:`. -/
def checkPackageUrl (d : Dict) : Except String String :=
  match jlookup d "package_url" with
  | some (.jstr s) =>
    if matchesPkg s then .ok s
    else .error "String should match pattern ^pkg:"
  | some _ => .error "package_url: Input should be a valid string"
  | none => .error "package_url: Field required"

/-- Validation of the `name` field: a string. -/
def checkName (d : Dict) : Except String String :=
  match jlookup d "name" with
  | some (.jstr s) => .ok s
  | some _ => .error "name: Input should be a valid string"
  | none => .error "name: Field required"

/-- Validation of the `status` field: one of the enum values. -/
def checkStatus (d : Dict) : Except String ComponentStatus :=
  match jlookup d "status" with
  | some (.jstr s) =>
    match statusOfString s with
    | some st => .ok st
    | none => .error "status: Input should be Active, Deprecated or Forbidden"
  | some _ => .error "status: Input should be a valid string"
  | none => .error "status: Field required"

/-- Validation of the `icon_class` field: a string. -/
def checkIconClass (d : Dict) : Except String String :=
  match jlookup d "icon_class" with
  | some (.jstr s) => .ok s
  | some _ => .error "icon_class: Input should be a valid string"
  | none => .error "icon_class: Field required"

/-- Validation of the `active_version` field: a version range or null. -/
def checkActiveVersion (d : Dict) : Except String (Option String) :=
  match jlookup d "active_version" with
  | some .jnull => .ok none
  | some (.jstr s) => .ok (some s)
  | some _ => .error "active_version: Input should be a version range or null"
  | none => .error "active_version: Field required"

/-- Validation of the `home_page` field: a string or null. -/
def checkHomePage (d : Dict) : Except String (Option String) :=
  match jlookup d "home_page" with
  | some .jnull => .ok none
  | some (.jstr s) => .ok (some s)
  | some _ => .error "home_page: Input should be a string or null"
  | none => .error "home_page: Field required"

/-- The error message of a failed field check, if any. -/
def errOf {α : Type} : Except String α → Option String
  | .ok _ => none
  | .error e => some e

/-- The `Component.model_validate` call: every field is checked (pydantic
collects all violations, in field declaration order); extra keys are
ignored. On failure, the ordered list of violation messages is returned. -/
def validateComponent (d : Dict) : Except (List String) Component :=
  match checkPackageUrl d, checkName d, checkStatus d, checkIconClass d,
      checkActiveVersion d, checkHomePage d with
  | .ok p, .ok n, .ok st, .ok ic, .ok av, .ok hp =>
    .ok ⟨p, n, st, ic, av, hp⟩
  | rp, rn, rst, ric, rav, rhp =>
    .error (([errOf rp, errOf rn, errOf rst, errOf ric, errOf rav,
              errOf rhp]).filterMap id)

/-- A stored row of `v1.components`: the component field dictionary plus the
last-modified metadata columns touched by `PATCH_SQL`. -/
structure Row where
  value : Dict
  last_modified_at : Nat
  last_modified_by : Option String
  deriving DecidableEq, Repr

/-- The `v1.components` table. -/
abbrev Db := List Row

/-- Does a row's `package_url` column equal the given identifier? -/
def rowKeyIs (r : Row) (pkg : String) : Bool :=
  jlookup r.value "package_url" == some (.jstr pkg)

/-- The `GET_SQL` query: the row whose `package_url` matches. -/
def getRow (db : Db) (pkg : String) : Option Row :=
  db.find? (rowKeyIs · pkg)

/-- Outcome of `scoring.update_component_score_for_project` for one project:
success, a foreign-key violation (the project was deleted between the
affected-projects query and the upsert), or any other database failure. -/
inductive ScoreResult where
  | ok
  | fkViolation
  | fatal
  deriving DecidableEq, Repr

/-- The fan-out loop of `_update_affected_projects`: recompute each project
in turn, logging and skipping `ForeignKeyViolation` and aborting on any
other exception. Returns the ids for which recomputation was attempted,
as `.ok` when the loop completed and as `.error` when a fatal exception
aborted the remaining fan-out. -/
def processProjects (f : Nat → ScoreResult) : List Nat → List Nat → Except (List Nat) (List Nat)
  | [], acc => .ok acc.reverse
  | id :: rest, acc =>
    match f id with
    | .fatal => .error acc.reverse
    | _ => processProjects f rest (id :: acc)

/-- `_update_affected_projects`: the affected-projects query returns `rows`
(one per matching `v1.project_components` row); the handler collects them
into a set of distinct ids and iterates. -/
def updateAffectedProjects (rows : List Nat) (f : Nat → ScoreResult) :
    Except (List Nat) (List Nat) :=
  processProjects f rows.dedup []

/-- `_project_update_required`: the components configuration must carry a
`project_fact_type_id`; then a status change, or an active final status with
a changed active version, requires the cascade. -/
def projectUpdateRequired (cfg : Option Nat) (original updated : Component) : Bool :=
  match cfg with
  | none => false
  | some _ =>
    if updated.status != original.status then true
    else if updated.status == .active
        && updated.active_version != original.active_version then true
    else false

/-- The request body as seen by `jsonpatch.JsonPatch(...)`: either a
document the constructor rejects (`BadJsonPatch` is raised) or a
well-formed operation sequence. -/
inductive PatchDoc where
  | malformed
  | wellFormed (ops : List PatchOp)
  deriving DecidableEq, Repr

/-- The observable outcome of `RecordRequestHandler.patch`. -/
inductive PatchOutcome where
  | itemNotFound
  | badJsonPatch
  | uncaught
  | notModified
  | invalidComponent (detail : String)
  | databaseError
  | cascadeFailed
  | updated
  deriving DecidableEq, Repr

/-- Result of one execution of `RecordRequestHandler.patch`: the response
outcome, the table state after the call, whether the cascade block ran, and
the project ids for which score recomputation was attempted. -/
structure PatchResult where
  outcome : PatchOutcome
  db : Db
  cascadeTriggered : Bool
  attempted : List Nat
  deriving DecidableEq, Repr

/-- The idempotence short-circuit
`all(original_dict[k] == updated_dict[k] for k in updated_dict)`:
iterates the updated dictionary's keys in order, raising `KeyError`
(modelled as `.error ()`) when a key is missing from the original and
stopping at the first differing value. -/
def allEqCheck : Dict → Dict → Except Unit Bool
  | [], _ => .ok true
  | (k, v) :: rest, orig =>
    match jlookup orig k with
    | none => .error ()
    | some ov => if ov = v then allEqCheck rest orig else .ok false

/-- The conditional write of `PATCH_SQL` applied to the table: every row
whose `package_url` equals the original identifier is overwritten with the
updated snapshot, stamped with the acting user and the current time. -/
def runPatchSql (db : Db) (origKey : String) (u : Component)
    (username : String) (now : Nat) : Db :=
  db.map (fun r =>
    if rowKeyIs r origKey then ⟨Component.dump u, now, some username⟩ else r)

/-- `RecordRequestHandler.patch`, one execution. `dbRead` is the table when
`GET_SQL` runs and `dbWrite` the table when `PATCH_SQL` runs (both awaits
are suspension points, so a concurrent writer may change the table in
between; a run without concurrent interference has `dbWrite = dbRead`).
`affected` and `score` describe the cascade environment: the rows returned
by the affected-projects query and each project's recomputation outcome.
Stages, in source order: `GET_SQL` (404 when empty), `model_validate` of the
stored row (an invalid row raises out of the handler), `JsonPatch`
construction (caught, 400), `patch.apply` (not inside the `try`, so a
structural failure raises out of the handler), the idempotence
short-circuit (304), `model_validate` of the patched dict (caught, 400 with
the first violation's detail), `PATCH_SQL` (zero affected rows raises
`DatabaseError`), the conditional cascade, and the final re-read response. -/
def patchHandler (cfg : Option Nat) (dbRead dbWrite : Db) (pkg : String)
    (body : PatchDoc) (username : String) (now : Nat)
    (affected : List Nat) (score : Nat → ScoreResult) : PatchResult :=
  match getRow dbRead pkg with
  | none => ⟨.itemNotFound, dbWrite, false, []⟩
  | some row =>
    match validateComponent row.value with
    | .error _ => ⟨.uncaught, dbWrite, false, []⟩
    | .ok original =>
      match body with
      | .malformed => ⟨.badJsonPatch, dbWrite, false, []⟩
      | .wellFormed ops =>
        match applyPatch (Component.dump original) ops with
        | none => ⟨.uncaught, dbWrite, false, []⟩
        | some updatedDict =>
          match allEqCheck updatedDict (Component.dump original) with
          | .error _ => ⟨.uncaught, dbWrite, false, []⟩
          | .ok true => ⟨.notModified, dbWrite, false, []⟩
          | .ok false =>
            match validateComponent updatedDict with
            | .error errs => ⟨.invalidComponent (errs.headD ""), dbWrite, false, []⟩
            | .ok updated =>
              if (dbWrite.filter (rowKeyIs · original.package_url)).isEmpty then
                ⟨.databaseError, dbWrite, false, []⟩
              else if projectUpdateRequired cfg original updated then
                match updateAffectedProjects affected score with
                | .error att =>
                  ⟨.cascadeFailed,
                    runPatchSql dbWrite original.package_url updated username now, true, att⟩
                | .ok att =>
                  ⟨.updated,
                    runPatchSql dbWrite original.package_url updated username now, true, att⟩
              else
                ⟨.updated,
                  runPatchSql dbWrite original.package_url updated username now, false, []⟩

/-- `ComponentToken` (`components.py`): pagination token carrying the
starting package URL (default the empty string) and the page-size limit
inherited from `base.PaginationToken`. -/
structure ComponentToken where
  starting_package : String
  limit : Nat
  deriving DecidableEq, Repr

/-- `ComponentToken.with_first`: substitute the given row's `package_url`
as the starting key, keeping every other token field. -/
def ComponentToken.with_first (t : ComponentToken) (pkg : String) : ComponentToken :=
  { t with starting_package := pkg }

/-- `ProjectComponentsToken` (`components.py`): pagination token carrying
the starting package URL and the scoping project id. -/
structure ProjectComponentsToken where
  starting_package : String
  project_id : Int
  limit : Nat
  deriving DecidableEq, Repr

/-- `ProjectComponentsToken.with_first`: substitute the given row's
`package_url` as the starting key, keeping the project id and the limit. -/
def ProjectComponentsToken.with_first (t : ProjectComponentsToken)
    (pkg : String) : ProjectComponentsToken :=
  { t with starting_package := pkg }

/-- The components `COLLECTION_SQL` over a fixed snapshot of the store,
viewed through its `package_url` column: rows with
`package_url > starting_package`, ordered ascending, limited. -/
def componentsPage (store : List String) (t : ComponentToken) : List String :=
  (((store.filter (fun k => t.starting_package < k)).insertionSort (· ≤ ·)).take t.limit)

/-- Modelled from the spec: `base.PaginatedCollectionHandler.get` is not
among the embedded sources. Per section 4.1, one page is the collection
query at the token, and a next token — derived by substituting the page's
last row's key — is issued unless the page is short (fewer rows than the
limit). -/
def listComponents (store : List String) (t : ComponentToken) :
    List String × Option ComponentToken :=
  let items := componentsPage store t
  match items.getLast? with
  | none => (items, none)
  | some last =>
    if items.length = t.limit then (items, some (t.with_first last))
    else (items, none)

/-- Repeatedly request pages, feeding each returned token back, and
concatenate the items; `fuel` bounds the number of requests. -/
def allPages (store : List String) : Nat → ComponentToken → List String
  | 0, _ => []
  | n + 1, t =>
    match listComponents store t with
    | (items, none) => items
    | (items, some t') => items ++ allPages store n t'

/-- The root row returned by `Project.SQL` (`models.py`): the scalar
columns consumed by the assembly, including the foreign keys that the
sub-loads resolve. -/
structure ProjectRow where
  id : Int
  namespace_id : Int
  project_type_id : Int
  name : String
  slug : String
  project_score : Int
  deriving DecidableEq, Repr

/-- The `Namespace` record, restricted to the fields the aggregate keeps. -/
structure Namespace where
  id : Int
  name : String
  deriving DecidableEq, Repr

/-- The `ProjectType` record, restricted to the fields the aggregate keeps. -/
structure ProjectType where
  id : Int
  name : String
  deriving DecidableEq, Repr

/-- One `ProjectFact` row as consumed by the assembly. -/
structure ProjectFact where
  name : String
  value : String
  deriving DecidableEq, Repr

/-- One `ProjectLink` row as consumed by the assembly. -/
structure ProjectLink where
  link_type : String
  url : String
  deriving DecidableEq, Repr

/-- One `ProjectURL` row as consumed by the assembly. -/
structure ProjectURL where
  environment : String
  url : String
  deriving DecidableEq, Repr

/-- One `ProjectIdentifier` row as consumed by the assembly. -/
structure ProjectIdentifier where
  integration_name : String
  external_id : String
  deriving DecidableEq, Repr

/-- One `ProjectComponent` row as consumed by the assembly. -/
structure ProjectComponent where
  package_url : String
  version : String
  deriving DecidableEq, Repr

/-- One `ProjectDependency` row as consumed by the assembly. -/
structure ProjectDependency where
  dependency_id : Int
  deriving DecidableEq, Repr

/-- The assembled `Project` aggregate: the root's fields with the foreign
keys replaced by the resolved entities and the derived projections from the
components collection. `ns` stands for the source's `namespace` field. -/
structure Project where
  id : Int
  name : String
  slug : String
  ns : Namespace
  project_type : ProjectType
  facts : List (String × String)
  links : List (String × String)
  urls : List (String × String)
  identifiers : List (String × String)
  components : List (String × String)
  component_versions : List String
  dependencies : List Int
  project_score : Int
  deriving DecidableEq, Repr

/-- The store as observed by one `project(...)` call: the root query's
result and the result of each of the eight sub-loads, each either its rows
or the `DatabaseError` its error callback raises. -/
structure ProjectEnv where
  root : Option ProjectRow
  ns : Except String Namespace
  ptype : Except String ProjectType
  facts : Except String (List ProjectFact)
  links : Except String (List ProjectLink)
  urls : Except String (List ProjectURL)
  identifiers : Except String (List ProjectIdentifier)
  components : Except String (List ProjectComponent)
  dependencies : Except String (List ProjectDependency)

/-- The error of a sub-load, if it failed. -/
def subErr {α : Type} : Except String α → Option String
  | .ok _ => none
  | .error e => some e

/-- The errors of the failing sub-loads of an environment, in the order the
sub-loads are passed to `asyncio.gather`. -/
def subErrors (env : ProjectEnv) : List String :=
  ([subErr env.ns, subErr env.ptype, subErr env.facts, subErr env.links,
    subErr env.urls, subErr env.identifiers, subErr env.components,
    subErr env.dependencies]).filterMap id

/-- `models.project`: load the root row; when absent the function returns
`None`. Otherwise gather the eight sub-loads — a failure in any of them
fails the whole call with that sub-load's error — and assemble the
aggregate, replacing the foreign keys with the resolved entities and
deriving the two convenience projections from the components collection. -/
def project (env : ProjectEnv) : Except String (Option Project) :=
  match env.root with
  | none => .ok none
  | some values =>
    match env.ns with
    | .error e => .error e
    | .ok n =>
      match env.ptype with
      | .error e => .error e
      | .ok pt =>
        match env.facts with
        | .error e => .error e
        | .ok fs =>
          match env.links with
          | .error e => .error e
          | .ok ls =>
            match env.urls with
            | .error e => .error e
            | .ok us =>
              match env.identifiers with
              | .error e => .error e
              | .ok ids =>
                match env.components with
                | .error e => .error e
                | .ok cs =>
                  match env.dependencies with
                  | .error e => .error e
                  | .ok ds =>
                    .ok (some
                      { id := values.id
                        name := values.name
                        slug := values.slug
                        ns := n
                        project_type := pt
                        facts := fs.map (fun f => (f.name, f.value))
                        links := ls.map (fun l => (l.link_type, l.url))
                        urls := us.map (fun u => (u.environment, u.url))
                        identifiers := ids.map (fun i => (i.integration_name, i.external_id))
                        components := cs.map (fun c => (c.package_url, c.version))
                        component_versions :=
                          cs.map (fun c => c.package_url ++ "@" ++ c.version)
                        dependencies := ds.map (fun d => d.dependency_id)
                        project_score := values.project_score })

/-! Lemmas about the dictionary operations. -/

theorem jlookup_dset_same (d : Dict) (k : String) (v : JValue) :
    jlookup (dset d k v) k = some v := by
  induction d with
  | nil => simp [dset, jlookup]
  | cons p rest ih =>
    obtain ⟨k', v'⟩ := p
    by_cases h : k' = k <;> simp [dset, jlookup, h, ih]

theorem jlookup_dset_ne (d : Dict) (k k' : String) (v : JValue) (h : k' ≠ k) :
    jlookup (dset d k v) k' = jlookup d k' := by
  induction d with
  | nil => simp [dset, jlookup, Ne.symm h]
  | cons p rest ih =>
    obtain ⟨k₀, v₀⟩ := p
    by_cases h₀ : k₀ = k
    · subst h₀
      simp [dset, jlookup, Ne.symm h]
    · simp [dset, jlookup, h₀, ih]

theorem dset_dset_same (d : Dict) (k : String) (v v' : JValue) :
    dset (dset d k v) k v' = dset d k v' := by
  induction d with
  | nil => simp [dset]
  | cons p rest ih =>
    obtain ⟨k₀, v₀⟩ := p
    by_cases h : k₀ = k <;> simp [dset, h, ih]

theorem dset_eq_self (d : Dict) (k : String) (v : JValue)
    (h : jlookup d k = some v) : dset d k v = d := by
  induction d with
  | nil => simp [jlookup] at h
  | cons p rest ih =>
    obtain ⟨k₀, v₀⟩ := p
    by_cases h₀ : k₀ = k
    · subst h₀
      simp [jlookup] at h
      simp [dset, h]
    · simp [jlookup, h₀] at h
      simp [dset, h₀, ih h]

theorem mem_dkeys_iff (d : Dict) (k : String) :
    k ∈ dkeys d ↔ (jlookup d k).isSome := by
  induction d with
  | nil => simp [dkeys, jlookup]
  | cons p rest ih =>
    obtain ⟨k₀, v₀⟩ := p
    by_cases h : k₀ = k
    · subst h
      simp [dkeys, jlookup]
    · simpa [dkeys, jlookup, h, Ne.symm h] using ih

theorem jlookup_eq_none_of_not_mem (d : Dict) (k : String)
    (h : k ∉ dkeys d) : jlookup d k = none := by
  rcases h' : jlookup d k with _ | v
  · rfl
  · exact absurd ((mem_dkeys_iff d k).2 (by simp [h'])) h

theorem dkeys_dset (d : Dict) (k : String) (v : JValue)
    (h : (jlookup d k).isSome) : dkeys (dset d k v) = dkeys d := by
  induction d with
  | nil => simp [jlookup] at h
  | cons p rest ih =>
    obtain ⟨k₀, v₀⟩ := p
    by_cases h₀ : k₀ = k
    · subst h₀
      simp [dset, dkeys]
    · simp [jlookup, h₀] at h
      have hrec := ih h
      simp only [dkeys] at hrec
      simp [dset, dkeys, h₀, hrec]

theorem dset_comm (d : Dict) (k k' : String) (v v' : JValue) (hne : k ≠ k')
    (hk : (jlookup d k).isSome) (hk' : (jlookup d k').isSome) :
    dset (dset d k v) k' v' = dset (dset d k' v') k v := by
  induction d with
  | nil => simp [jlookup] at hk
  | cons p rest ih =>
    obtain ⟨k₀, v₀⟩ := p
    by_cases h₀ : k₀ = k
    · subst h₀
      simp [dset, hne, Ne.symm hne]
    · by_cases h₁ : k₀ = k'
      · subst h₁
        simp [dset, h₀, hne, Ne.symm hne]
      · simp [jlookup, h₀] at hk
        simp [jlookup, h₁] at hk'
        simp [dset, h₀, h₁, ih hk hk']

theorem dict_ext (d₁ d₂ : Dict) (hk : dkeys d₁ = dkeys d₂)
    (hnd : (dkeys d₁).Nodup) (hl : ∀ k, jlookup d₁ k = jlookup d₂ k) :
    d₁ = d₂ := by
  induction d₁ generalizing d₂ with
  | nil =>
    cases d₂ with
    | nil => rfl
    | cons p rest => simp [dkeys] at hk
  | cons p rest ih =>
    obtain ⟨k₀, v₀⟩ := p
    cases d₂ with
    | nil => simp [dkeys] at hk
    | cons q rest₂ =>
      obtain ⟨k₁, v₁⟩ := q
      simp only [dkeys, List.map_cons, List.cons.injEq] at hk
      obtain ⟨hkk, hrest⟩ := hk
      subst hkk
      have hv : v₀ = v₁ := by
        have := hl k₀
        simpa [jlookup] using this
      subst hv
      simp only [dkeys, List.map_cons, List.nodup_cons] at hnd
      refine congrArg _ (ih rest₂ hrest hnd.2 ?_)
      intro k
      by_cases hk0 : k = k₀
      · subst hk0
        have h₁ : jlookup rest k = none :=
          jlookup_eq_none_of_not_mem _ _ (by simpa [dkeys] using hnd.1)
        have h₂ : jlookup rest₂ k = none := by
          refine jlookup_eq_none_of_not_mem _ _ ?_
          have hmem : k ∉ dkeys rest := by simpa [dkeys] using hnd.1
          simpa [dkeys, ← hrest] using hmem
        rw [h₁, h₂]
      · have := hl k
        simpa [jlookup, Ne.symm hk0] using this

/-! The replace-only fragment of the patch language, and its idempotence. -/

/-- Is the operation a replace? -/
def isReplaceOp : PatchOp → Bool
  | .replace _ _ => true
  | _ => false

/-- The paths replaced by an operation sequence. -/
def replacedKeys (ops : List PatchOp) : List String :=
  ops.filterMap (fun op =>
    match op with
    | .replace k _ => some k
    | _ => none)

theorem dkeys_applyPatch_replace (ops : List PatchOp) (d e : Dict)
    (hro : ∀ op ∈ ops, isReplaceOp op = true)
    (h : applyPatch d ops = some e) : dkeys e = dkeys d := by
  induction ops generalizing d with
  | nil =>
    simp [applyPatch] at h
    rw [h]
  | cons op rest ih =>
    have hop := hro op (List.mem_cons_self _ _)
    cases op with
    | replace k v =>
      simp only [applyPatch, applyOp] at h
      cases hl : jlookup d k with
      | none => rw [hl] at h; simp at h
      | some w =>
        rw [hl] at h
        have := ih (dset d k v) (fun o hm => hro o (List.mem_cons_of_mem _ hm)) h
        rw [this, dkeys_dset d k v (by simp [hl])]
    | add k v => simp [isReplaceOp] at hop
    | remove k => simp [isReplaceOp] at hop
    | move kf kt => simp [isReplaceOp] at hop
    | copy kf kt => simp [isReplaceOp] at hop
    | test k v => simp [isReplaceOp] at hop

theorem jlookup_applyPatch_unreplaced (ops : List PatchOp) (d e : Dict) (k : String)
    (hro : ∀ op ∈ ops, isReplaceOp op = true)
    (hk : k ∉ replacedKeys ops)
    (h : applyPatch d ops = some e) : jlookup e k = jlookup d k := by
  induction ops generalizing d with
  | nil =>
    simp [applyPatch] at h
    rw [h]
  | cons op rest ih =>
    have hop := hro op (List.mem_cons_self _ _)
    cases op with
    | replace k₁ v₁ =>
      simp only [replacedKeys, List.filterMap_cons, List.mem_cons] at hk
      push_neg at hk
      simp only [applyPatch, applyOp] at h
      cases hl : jlookup d k₁ with
      | none => rw [hl] at h; simp at h
      | some w =>
        rw [hl] at h
        have hrec := ih (dset d k₁ v₁)
          (fun o hm => hro o (List.mem_cons_of_mem _ hm))
          (by simpa [replacedKeys] using hk.2) h
        rw [hrec, jlookup_dset_ne d k₁ k v₁ hk.1]
    | add k₁ v => simp [isReplaceOp] at hop
    | remove k₁ => simp [isReplaceOp] at hop
    | move kf kt => simp [isReplaceOp] at hop
    | copy kf kt => simp [isReplaceOp] at hop
    | test k₁ v => simp [isReplaceOp] at hop

theorem applyPatch_dset_replace (ops : List PatchOp) (d e : Dict)
    (k : String) (v : JValue)
    (hro : ∀ op ∈ ops, isReplaceOp op = true)
    (h : applyPatch d ops = some e)
    (hk : (jlookup d k).isSome) :
    applyPatch (dset d k v) ops =
      some (if k ∈ replacedKeys ops then e else dset e k v) := by
  induction ops generalizing d e with
  | nil =>
    simp [applyPatch] at h
    simp [applyPatch, replacedKeys, h]
  | cons op rest ih =>
    have hop := hro op (List.mem_cons_self _ _)
    cases op with
    | replace k₁ v₁ =>
      simp only [applyPatch, applyOp] at h
      cases hl : jlookup d k₁ with
      | none => rw [hl] at h; simp at h
      | some w =>
        rw [hl] at h
        by_cases hkk : k = k₁
        · subst hkk
          have hstep : jlookup (dset d k v) k = some v := jlookup_dset_same d k v
          simp only [applyPatch, applyOp, hstep, dset_dset_same]
          have hin : k ∈ replacedKeys (PatchOp.replace k v₁ :: rest) := by
            simp [replacedKeys]
          rw [if_pos hin]
          exact h
        · have hstep : jlookup (dset d k v) k₁ = some w := by
            rw [jlookup_dset_ne d k k₁ v (Ne.symm hkk), hl]
          have hcomm : dset (dset d k v) k₁ v₁ = dset (dset d k₁ v₁) k v :=
            dset_comm d k k₁ v v₁ hkk hk (by simp [hl])
          have hk' : (jlookup (dset d k₁ v₁) k).isSome := by
            rw [jlookup_dset_ne d k₁ k v₁ hkk]
            exact hk
          have hrec := ih (dset d k₁ v₁) e
            (fun o hm => hro o (List.mem_cons_of_mem _ hm)) h hk'
          simp only [applyPatch, applyOp, hstep, hcomm, hrec]
          have hmem : k ∈ replacedKeys (PatchOp.replace k₁ v₁ :: rest) ↔
              k ∈ replacedKeys rest := by
            simp [replacedKeys, hkk]
          by_cases hr : k ∈ replacedKeys rest
          · rw [if_pos hr, if_pos (hmem.2 hr)]
          · rw [if_neg hr, if_neg (fun hh => hr (hmem.1 hh))]
    | add k₁ v₁ => simp [isReplaceOp] at hop
    | remove k₁ => simp [isReplaceOp] at hop
    | move kf kt => simp [isReplaceOp] at hop
    | copy kf kt => simp [isReplaceOp] at hop
    | test k₁ v₁ => simp [isReplaceOp] at hop

theorem applyPatch_idem (ops : List PatchOp) (d e : Dict)
    (hro : ∀ op ∈ ops, isReplaceOp op = true)
    (h : applyPatch d ops = some e) :
    applyPatch e ops = some e := by
  induction ops generalizing d with
  | nil => simp [applyPatch]
  | cons op rest ih =>
    have hop := hro op (List.mem_cons_self _ _)
    cases op with
    | replace k v =>
      simp only [applyPatch, applyOp] at h
      cases hl : jlookup d k with
      | none => rw [hl] at h; simp at h
      | some w =>
        rw [hl] at h
        have hroRest : ∀ o ∈ rest, isReplaceOp o = true :=
          fun o hm => hro o (List.mem_cons_of_mem _ hm)
        have hkeys : dkeys e = dkeys (dset d k v) :=
          dkeys_applyPatch_replace rest (dset d k v) e hroRest h
        have hke : (jlookup e k).isSome := by
          have : k ∈ dkeys e := by
            rw [hkeys]
            exact (mem_dkeys_iff _ _).2 (by simp [jlookup_dset_same])
          exact (mem_dkeys_iff _ _).1 this
        rcases hw : jlookup e k with _ | w'
        · rw [hw] at hke; simp at hke
        · have hrec := applyPatch_dset_replace rest e e k v hroRest
            (ih (dset d k v) hroRest h) hke
          simp only [applyPatch, applyOp, hw]
          by_cases hr : k ∈ replacedKeys rest
          · rw [hrec, if_pos hr]
          · have hval : jlookup e k = some v := by
              rw [jlookup_applyPatch_unreplaced rest (dset d k v) e k hroRest hr h]
              exact jlookup_dset_same d k v
            rw [hrec, if_neg hr, dset_eq_self e k v hval]
    | add k v => simp [isReplaceOp] at hop
    | remove k => simp [isReplaceOp] at hop
    | move kf kt => simp [isReplaceOp] at hop
    | copy kf kt => simp [isReplaceOp] at hop
    | test k v => simp [isReplaceOp] at hop

/-! Lemmas about component validation and dumping. -/

theorem statusOfString_toStr (s : ComponentStatus) :
    statusOfString s.toStr = some s := by
  cases s <;> rfl

theorem toStr_statusOfString (s : String) (st : ComponentStatus)
    (h : statusOfString s = some st) : s = st.toStr := by
  unfold statusOfString at h
  split_ifs at h with h1 h2 h3 <;>
    injection h with h' <;> subst h' <;> simp_all [ComponentStatus.toStr]

theorem checkPackageUrl_ok (d : Dict) (p : String)
    (h : checkPackageUrl d = .ok p) :
    jlookup d "package_url" = some (.jstr p) ∧ matchesPkg p = true := by
  unfold checkPackageUrl at h
  split at h
  · rename_i s heq
    split_ifs at h with hs
    · injection h with h'
      subst h'
      exact ⟨heq, hs⟩
  all_goals simp at h

theorem checkName_ok (d : Dict) (n : String)
    (h : checkName d = .ok n) : jlookup d "name" = some (.jstr n) := by
  unfold checkName at h
  split at h
  · rename_i s heq
    injection h with h'
    subst h'
    exact heq
  all_goals simp at h

theorem checkStatus_ok (d : Dict) (st : ComponentStatus)
    (h : checkStatus d = .ok st) :
    jlookup d "status" = some (.jstr st.toStr) := by
  unfold checkStatus at h
  split at h
  · rename_i s heq
    split at h
    · rename_i st' heq'
      injection h with h'
      rw [heq, toStr_statusOfString s st' heq', h']
    all_goals simp at h
  all_goals simp at h

theorem checkIconClass_ok (d : Dict) (ic : String)
    (h : checkIconClass d = .ok ic) : jlookup d "icon_class" = some (.jstr ic) := by
  unfold checkIconClass at h
  split at h
  · rename_i s heq
    injection h with h'
    subst h'
    exact heq
  all_goals simp at h

theorem checkActiveVersion_ok (d : Dict) (av : Option String)
    (h : checkActiveVersion d = .ok av) :
    jlookup d "active_version" = some (optJStr av) := by
  unfold checkActiveVersion at h
  split at h
  · injection h with h'
    subst h'
    rename_i heq
    simpa [optJStr] using heq
  · rename_i s heq
    injection h with h'
    subst h'
    simpa [optJStr] using heq
  all_goals simp at h

theorem checkHomePage_ok (d : Dict) (hp : Option String)
    (h : checkHomePage d = .ok hp) :
    jlookup d "home_page" = some (optJStr hp) := by
  unfold checkHomePage at h
  split at h
  · injection h with h'
    subst h'
    rename_i heq
    simpa [optJStr] using heq
  · rename_i s heq
    injection h with h'
    subst h'
    simpa [optJStr] using heq
  all_goals simp at h

theorem validateComponent_ok (d : Dict) (u : Component)
    (h : validateComponent d = .ok u) :
    checkPackageUrl d = .ok u.package_url ∧ checkName d = .ok u.name ∧
      checkStatus d = .ok u.status ∧ checkIconClass d = .ok u.icon_class ∧
      checkActiveVersion d = .ok u.active_version ∧
      checkHomePage d = .ok u.home_page := by
  unfold validateComponent at h
  split at h
  · rename_i p n st ic av hp h1 h2 h3 h4 h5 h6
    injection h with h'
    subst h'
    exact ⟨h1, h2, h3, h4, h5, h6⟩
  · simp at h

theorem validateComponent_matchesPkg (d : Dict) (u : Component)
    (h : validateComponent d = .ok u) :
    matchesPkg u.package_url = true :=
  (checkPackageUrl_ok d u.package_url (validateComponent_ok d u h).1).2

theorem jlookup_package_url_of_ok (d : Dict) (u : Component)
    (h : validateComponent d = .ok u) :
    jlookup d "package_url" = some (.jstr u.package_url) :=
  (checkPackageUrl_ok d u.package_url (validateComponent_ok d u h).1).1

theorem validate_dump (u : Component)
    (h : matchesPkg u.package_url = true) :
    validateComponent (Component.dump u) = .ok u := by
  have h1 : checkPackageUrl (Component.dump u) = .ok u.package_url := by
    simp [checkPackageUrl, Component.dump, jlookup, h]
  have h2 : checkName (Component.dump u) = .ok u.name := by
    simp [checkName, Component.dump, jlookup]
  have h3 : checkStatus (Component.dump u) = .ok u.status := by
    simp [checkStatus, Component.dump, jlookup, statusOfString_toStr]
  have h4 : checkIconClass (Component.dump u) = .ok u.icon_class := by
    simp [checkIconClass, Component.dump, jlookup]
  have h5 : checkActiveVersion (Component.dump u) = .ok u.active_version := by
    cases hav : u.active_version <;>
      simp [checkActiveVersion, Component.dump, jlookup, optJStr, hav]
  have h6 : checkHomePage (Component.dump u) = .ok u.home_page := by
    cases hh : u.home_page <;>
      simp [checkHomePage, Component.dump, jlookup, optJStr, hh]
  simp [validateComponent, h1, h2, h3, h4, h5, h6]

theorem dump_pointwise (u : Component) :
    ∀ k v, (k, v) ∈ Component.dump u → jlookup (Component.dump u) k = some v := by
  intro k v hm
  simp [Component.dump] at hm
  rcases hm with ⟨rfl, rfl⟩ | ⟨rfl, rfl⟩ | ⟨rfl, rfl⟩ | ⟨rfl, rfl⟩ | ⟨rfl, rfl⟩ | ⟨rfl, rfl⟩ <;>
    simp [Component.dump, jlookup]

theorem canonical_eq_dump (d : Dict) (u : Component)
    (h : validateComponent d = .ok u)
    (hk : dkeys d = dkeys (Component.dump u)) :
    d = Component.dump u := by
  obtain ⟨h1, h2, h3, h4, h5, h6⟩ := validateComponent_ok d u h
  refine dict_ext d (Component.dump u) hk ?_ ?_
  · rw [hk]
    have hlit : dkeys (Component.dump u) = ["package_url", "name", "status",
        "icon_class", "active_version", "home_page"] := rfl
    rw [hlit]
    decide
  · intro k
    by_cases hc : k ∈ dkeys (Component.dump u)
    · simp [Component.dump, dkeys] at hc
      rcases hc with rfl | rfl | rfl | rfl | rfl | rfl
      · rw [checkPackageUrl_ok d u.package_url h1 |>.1]
        simp [Component.dump, jlookup]
      · rw [checkName_ok d u.name h2]
        simp [Component.dump, jlookup]
      · rw [checkStatus_ok d u.status h3]
        simp [Component.dump, jlookup]
      · rw [checkIconClass_ok d u.icon_class h4]
        simp [Component.dump, jlookup]
      · rw [checkActiveVersion_ok d u.active_version h5]
        simp [Component.dump, jlookup]
      · rw [checkHomePage_ok d u.home_page h6]
        simp [Component.dump, jlookup]
    · have hd : k ∉ dkeys d := by
        rw [hk]
        exact hc
      rw [jlookup_eq_none_of_not_mem _ _ hd, jlookup_eq_none_of_not_mem _ _ hc]

theorem processProjects_eq (f : Nat → ScoreResult) (ids acc : List Nat) :
    processProjects f ids acc =
      if ids.all (fun i => f i != .fatal)
      then .ok (acc.reverse ++ ids)
      else .error (acc.reverse ++ ids.takeWhile (fun i => f i != .fatal)) := by
  induction ids generalizing acc with
  | nil => simp [processProjects]
  | cons id rest ih =>
    cases hf : f id with
    | fatal => simp [processProjects, hf, List.takeWhile_cons]
    | ok =>
      rw [show processProjects f (id :: rest) acc = processProjects f rest (id :: acc) by
        simp [processProjects, hf]]
      simp [ih, List.takeWhile_cons, hf]
    | fkViolation =>
      rw [show processProjects f (id :: rest) acc = processProjects f rest (id :: acc) by
        simp [processProjects, hf]]
      simp [ih, List.takeWhile_cons, hf]

theorem updateAffectedProjects_eq (rows : List Nat) (f : Nat → ScoreResult) :
    updateAffectedProjects rows f =
      if rows.dedup.all (fun i => f i != .fatal)
      then .ok rows.dedup
      else .error (rows.dedup.takeWhile (fun i => f i != .fatal)) := by
  simp [updateAffectedProjects, processProjects_eq]

/-! Staging lemmas for `patchHandler`. -/

theorem patchHandler_invalid_stage (cfg : Option Nat) (dbRead dbWrite : Db)
    (pkg : String) (ops : List PatchOp) (username : String) (now : Nat)
    (affected : List Nat) (score : Nat → ScoreResult)
    (row : Row) (o : Component) (ud : Dict) (errs : List String)
    (h1 : getRow dbRead pkg = some row)
    (h2 : validateComponent row.value = .ok o)
    (h3 : applyPatch (Component.dump o) ops = some ud)
    (h4 : allEqCheck ud (Component.dump o) = .ok false)
    (h5 : validateComponent ud = .error errs) :
    patchHandler cfg dbRead dbWrite pkg (.wellFormed ops) username now affected score =
      ⟨.invalidComponent (errs.headD ""), dbWrite, false, []⟩ := by
  simp [patchHandler, h1, h2, h3, h4, h5]

theorem patchHandler_write_stage (cfg : Option Nat) (dbRead dbWrite : Db)
    (pkg : String) (ops : List PatchOp) (username : String) (now : Nat)
    (affected : List Nat) (score : Nat → ScoreResult)
    (row : Row) (o : Component) (ud : Dict) (u : Component)
    (h1 : getRow dbRead pkg = some row)
    (h2 : validateComponent row.value = .ok o)
    (h3 : applyPatch (Component.dump o) ops = some ud)
    (h4 : allEqCheck ud (Component.dump o) = .ok false)
    (h5 : validateComponent ud = .ok u) :
    patchHandler cfg dbRead dbWrite pkg (.wellFormed ops) username now affected score =
      if (dbWrite.filter (rowKeyIs · o.package_url)).isEmpty then
        ⟨.databaseError, dbWrite, false, []⟩
      else
        if projectUpdateRequired cfg o u then
          match updateAffectedProjects affected score with
          | .error att =>
            ⟨.cascadeFailed, runPatchSql dbWrite o.package_url u username now, true, att⟩
          | .ok att =>
            ⟨.updated, runPatchSql dbWrite o.package_url u username now, true, att⟩
        else ⟨.updated, runPatchSql dbWrite o.package_url u username now, false, []⟩ := by
  simp [patchHandler, h1, h2, h3, h4, h5]

theorem patchHandler_notModified_stage (cfg : Option Nat) (dbRead dbWrite : Db)
    (pkg : String) (ops : List PatchOp) (username : String) (now : Nat)
    (affected : List Nat) (score : Nat → ScoreResult)
    (row : Row) (o : Component) (ud : Dict)
    (h1 : getRow dbRead pkg = some row)
    (h2 : validateComponent row.value = .ok o)
    (h3 : applyPatch (Component.dump o) ops = some ud)
    (h4 : allEqCheck ud (Component.dump o) = .ok true) :
    patchHandler cfg dbRead dbWrite pkg (.wellFormed ops) username now affected score =
      ⟨.notModified, dbWrite, false, []⟩ := by
  simp [patchHandler, h1, h2, h3, h4]

/-! Lemmas relating the row identity, validation and the conditional write. -/

theorem getRow_key (db : Db) (pkg : String) (row : Row)
    (h : getRow db pkg = some row) : rowKeyIs row pkg = true := by
  unfold getRow at h
  have hp := List.find?_some h
  exact hp

theorem original_key_eq (pkg : String) (row : Row) (o : Component)
    (hk : rowKeyIs row pkg = true)
    (h : validateComponent row.value = .ok o) : o.package_url = pkg := by
  have hl := jlookup_package_url_of_ok row.value o h
  unfold rowKeyIs at hk
  rw [hl] at hk
  simpa using hk

theorem getRow_runPatchSql (db : Db) (key : String) (u : Component)
    (user : String) (now : Nat)
    (hne : (db.filter (rowKeyIs · key)).isEmpty = false)
    (hu : u.package_url = key) :
    getRow (runPatchSql db key u user now) key =
      some ⟨Component.dump u, now, some user⟩ := by
  induction db with
  | nil => simp [List.filter] at hne
  | cons r rest ih =>
    cases hr : rowKeyIs r key with
    | true =>
      have hmatch : rowKeyIs (⟨Component.dump u, now, some user⟩ : Row) key = true := by
        simp [rowKeyIs, Component.dump, jlookup, hu]
      simp [runPatchSql, getRow, List.find?_cons, hr, hmatch]
    | false =>
      have hne' : (rest.filter (rowKeyIs · key)).isEmpty = false := by
        simpa [List.filter_cons, hr] using hne
      have hstep : runPatchSql (r :: rest) key u user now =
          r :: runPatchSql rest key u user now := by
        simp [runPatchSql, hr]
      rw [hstep]
      unfold getRow
      rw [List.find?_cons_of_neg _ (by simp [hr])]
      exact ih hne'

theorem allEqCheck_of_pointwise (ud d0 : Dict)
    (h : ∀ k v, (k, v) ∈ ud → jlookup d0 k = some v) :
    allEqCheck ud d0 = .ok true := by
  induction ud with
  | nil => rfl
  | cons p rest ih =>
    obtain ⟨k, v⟩ := p
    have hk := h k v (List.mem_cons_self _ _)
    simp [allEqCheck, hk]
    exact ih (fun k' v' hm => h k' v' (List.mem_cons_of_mem _ hm))

theorem filter_ok_length (l : List Nat) (f : Nat → ScoreResult)
    (h : ∀ i ∈ l, f i ≠ .fatal) :
    (l.filter (fun i => f i == .ok)).length +
      (l.filter (fun i => f i == .fkViolation)).length = l.length := by
  induction l with
  | nil => simp
  | cons a rest ih =>
    have ha := h a (List.mem_cons_self _ _)
    have ih' := ih (fun i hi => h i (List.mem_cons_of_mem _ hi))
    cases hfa : f a with
    | ok =>
      simp only [List.filter_cons, hfa]
      simp only [show (ScoreResult.ok == ScoreResult.ok) = true from rfl,
        show (ScoreResult.ok == ScoreResult.fkViolation) = false from rfl]
      simp [List.length_cons]
      omega
    | fkViolation =>
      simp only [List.filter_cons, hfa]
      simp only [show (ScoreResult.fkViolation == ScoreResult.ok) = false from rfl,
        show (ScoreResult.fkViolation == ScoreResult.fkViolation) = true from rfl]
      simp [List.length_cons]
      omega
    | fatal => exact absurd hfa ha

theorem cascadeFailed_inv (cfg : Option Nat) (dbRead dbWrite : Db) (pkg : String)
    (body : PatchDoc) (user : String) (now : Nat) (affected : List Nat)
    (score : Nat → ScoreResult) (res : PatchResult)
    (heq : patchHandler cfg dbRead dbWrite pkg body user now affected score = res)
    (h : res.outcome = .cascadeFailed) :
    ∃ att, updateAffectedProjects affected score = .error att := by
  unfold patchHandler at heq
  repeat' split at heq
  all_goals
    subst heq
    first
      | (rename_i att hm; exact ⟨att, hm⟩)
      | simp at h

set_option maxHeartbeats 1600000 in
theorem project_spec (root : Option ProjectRow) (v : ProjectRow)
    (ns : Except String Namespace) (pt : Except String ProjectType)
    (fs : Except String (List ProjectFact)) (ls : Except String (List ProjectLink))
    (us : Except String (List ProjectURL)) (ids : Except String (List ProjectIdentifier))
    (cs : Except String (List ProjectComponent)) (ds : Except String (List ProjectDependency))
    (hr : root = some v) :
    (subErrors ⟨root, ns, pt, fs, ls, us, ids, cs, ds⟩ = [] →
      ∃ p, project ⟨root, ns, pt, fs, ls, us, ids, cs, ds⟩ = .ok (some p)) ∧
    (∀ e rest, subErrors ⟨root, ns, pt, fs, ls, us, ids, cs, ds⟩ = e :: rest →
      project ⟨root, ns, pt, fs, ls, us, ids, cs, ds⟩ = .error e) := by
  subst hr
  cases ns <;> cases pt <;> cases fs <;> cases ls <;> cases us <;>
    cases ids <;> cases cs <;> cases ds <;>
    constructor <;> intros <;>
    simp_all [project, subErrors, subErr]

/-! Concrete fixtures for the closed executions. -/

/-- A sample stored component. -/
def sampleComponent : Component :=
  ⟨"pkg:a", "a", ComponentStatus.active, "i", none, none⟩

/-- The sample component with its status set to Deprecated. -/
def sampleDeprecated : Component :=
  ⟨"pkg:a", "a", ComponentStatus.deprecated, "i", none, none⟩

/-- A one-row table holding the sample component. -/
def sampleDb : Db :=
  [⟨Component.dump sampleComponent, 0, none⟩]

/-- A recomputation environment where exactly project 2 was deleted
concurrently. -/
def sampleScore (i : Nat) : ScoreResult :=
  if i = 2 then .fkViolation else .ok

/-- A project-load environment whose namespace sub-load fails. -/
def sampleEnv : ProjectEnv :=
  ⟨some ⟨1, 2, 3, "n", "s", 9⟩, .error "boom", .ok ⟨3, "t"⟩, .ok [], .ok [],
    .ok [], .ok [], .ok [], .ok []⟩

/-! Claim theorems. -/

/-- C10: within a single cascade triggered by one component update, each
affected project id is recomputed at most once — the fan-out deduplicates
the affected-project rows into a set before iterating — so the attempted
ids are pairwise distinct and drawn from the query rows, even when a
project references the component through several versions. -/
theorem C10_distinct_recompute (rows : List Nat) (f : Nat → ScoreResult)
    (att : List Nat)
    (h : updateAffectedProjects rows f = .ok att ∨
      updateAffectedProjects rows f = .error att) :
    att.Nodup ∧ ∀ i ∈ att, i ∈ rows := by
  rw [updateAffectedProjects_eq] at h
  have hnd : rows.dedup.Nodup := List.nodup_dedup rows
  by_cases hall : rows.dedup.all (fun i => f i != ScoreResult.fatal) = true
  · rw [if_pos hall] at h
    rcases h with h | h
    · injection h with h'
      subst h'
      exact ⟨hnd, fun i hi => List.mem_dedup.1 hi⟩
    · exact absurd h (by simp)
  · rw [if_neg hall] at h
    rcases h with h | h
    · exact absurd h (by simp)
    · injection h with h'
      subst h'
      have hsub : (rows.dedup.takeWhile
          (fun i => f i != ScoreResult.fatal)).Sublist rows.dedup :=
        ( List.takeWhile_prefix _).sublist
      exact ⟨hnd.sublist hsub, fun i hi => List.mem_dedup.1 (hsub.subset hi)⟩

/-- Closed instance of C10: the rows repeat project 1, yet each id is
attempted once. -/
theorem C10_witness : ([2, 1] : List Nat).Nodup ∧ ∀ i ∈ [2, 1], i ∈ [1, 2, 1] :=
  C10_distinct_recompute [1, 2, 1] (fun _ => .ok) [2, 1] (Or.inl rfl)

/-- C7: in the cascade fan-out, foreign-key-violation failures are skipped
and the loop continues, so with no fatal failure every distinct id is
attempted; when exactly one dependent was concurrently deleted the other
N−1 recompute successfully and the patch never reports a cascade failure.
Any other failure class aborts the remaining fan-out and propagates. -/
theorem C7_cascade_fanout (rows : List Nat) (f : Nat → ScoreResult) :
    ((∀ i ∈ rows.dedup, f i ≠ .fatal) →
      updateAffectedProjects rows f = .ok rows.dedup ∧
        ((rows.dedup.filter (fun i => f i == ScoreResult.fkViolation)).length = 1 →
          (rows.dedup.filter (fun i => f i == ScoreResult.ok)).length + 1 =
            rows.dedup.length) ∧
        ∀ cfg dbRead dbWrite pkg body user now res,
          patchHandler cfg dbRead dbWrite pkg body user now rows f = res →
          res.outcome ≠ .cascadeFailed) ∧
    ((∃ i ∈ rows.dedup, f i = .fatal) →
      updateAffectedProjects rows f =
        .error (rows.dedup.takeWhile (fun i => f i != ScoreResult.fatal))) := by
  constructor
  · intro hnf
    have hall : rows.dedup.all (fun i => f i != ScoreResult.fatal) = true := by
      rw [List.all_eq_true]
      intro i hi
      simpa using hnf i hi
    have hok : updateAffectedProjects rows f = .ok rows.dedup := by
      rw [updateAffectedProjects_eq, if_pos hall]
    refine ⟨hok, ?_, ?_⟩
    · intro hfk
      have := filter_ok_length rows.dedup f hnf
      omega
    · intro cfg dbRead dbWrite pkg body user now res heq hcf
      obtain ⟨att, herr⟩ :=
        cascadeFailed_inv cfg dbRead dbWrite pkg body user now rows f res heq hcf
      rw [hok] at herr
      exact absurd herr (by simp)
  · rintro ⟨i, hi, hf⟩
    have hnall : ¬ rows.dedup.all (fun i => f i != ScoreResult.fatal) = true := by
      rw [List.all_eq_true]
      push_neg
      exact ⟨i, hi, by simp [hf]⟩
    rw [updateAffectedProjects_eq, if_neg hnall]

/-- Closed instance of C7: ids 1,2,3 with project 2 concurrently deleted:
the whole set is attempted and two of three recompute successfully. -/
theorem C7_witness :
    updateAffectedProjects [1, 2, 3] sampleScore = .ok [1, 2, 3] ∧
      ([1, 2, 3].filter (fun i => sampleScore i == ScoreResult.ok)).length + 1 = 3 := by
  have h := (C7_cascade_fanout [1, 2, 3] sampleScore).1 (by decide)
  have hd : ([1, 2, 3] : List Nat).dedup = [1, 2, 3] := rfl
  rw [hd] at h
  refine ⟨h.1, ?_⟩
  have h2 := h.2.1 (by decide)
  simpa using h2

/-- C3 (amended): with a components configuration that carries a
project_fact_type_id, the cascade decision procedure returns true iff the
status changed or the final status is Active and the active version
changed; and in a patch whose conditional write succeeds, the cascade block
runs exactly when that procedure returns true. -/
theorem C3_cascade_rule :
    (∀ (fid : Nat) (o u : Component),
      projectUpdateRequired (some fid) o u = true ↔
        (u.status ≠ o.status ∨
          (u.status = ComponentStatus.active ∧
            u.active_version ≠ o.active_version))) ∧
    (∀ (cfg : Option Nat) (dbRead dbWrite : Db) (pkg : String)
        (ops : List PatchOp) (user : String) (now : Nat) (affected : List Nat)
        (score : Nat → ScoreResult) (row : Row) (o : Component) (ud : Dict)
        (u : Component),
      getRow dbRead pkg = some row →
      validateComponent row.value = .ok o →
      applyPatch (Component.dump o) ops = some ud →
      allEqCheck ud (Component.dump o) = .ok false →
      validateComponent ud = .ok u →
      (dbWrite.filter (rowKeyIs · o.package_url)).isEmpty = false →
      (patchHandler cfg dbRead dbWrite pkg (.wellFormed ops) user now affected
          score).cascadeTriggered = projectUpdateRequired cfg o u) := by
  constructor
  · intro fid o u
    unfold projectUpdateRequired
    by_cases h1 : u.status = o.status <;>
      by_cases h2 : u.status = ComponentStatus.active <;>
        by_cases h3 : u.active_version = o.active_version <;>
          simp [h1, h2, h3]
  · intro cfg dbRead dbWrite pkg ops user now affected score row o ud u
      h1 h2 h3 h4 h5 h6
    rw [patchHandler_write_stage cfg dbRead dbWrite pkg ops user now affected
      score row o ud u h1 h2 h3 h4 h5]
    rw [if_neg (by simp [h6])]
    cases hp : projectUpdateRequired cfg o u with
    | true =>
      cases hval : updateAffectedProjects affected score with
      | error att => rfl
      | ok att => rfl
    | false => rfl

/-- Closed instance of C3 (amended): with a configured fact type id, a
status change Active→Deprecated requires the cascade. -/
theorem C3_witness :
    projectUpdateRequired (some 1) sampleComponent sampleDeprecated = true :=
  (C3_cascade_rule.1 1 sampleComponent sampleDeprecated).2 (Or.inl (by decide))

/-- Counterexample to C3 as stated: with no components configuration, the
patch commits a status change Active→Deprecated (the stored row now carries
Deprecated), yet no cascade is triggered. -/
theorem C3_counterexample :
    (patchHandler none sampleDb sampleDb "pkg:a"
        (.wellFormed [.replace "status" (.jstr "Deprecated")]) "alice" 1 [7]
        (fun _ => .ok)) =
      ⟨.updated, [⟨Component.dump sampleDeprecated, 1, some "alice"⟩], false, []⟩ ∧
    sampleDeprecated.status ≠ sampleComponent.status := by
  exact ⟨rfl, by decide⟩

/-- C4: the failing-input execution — a patch whose only operation is a
test op that does not match the stored snapshot escapes the handler as an
uncaught exception (`patch.apply` is outside the `try` block), instead of
the client-visible BadJsonPatch rejection that a malformed document
receives; the stored record is unmodified in both executions. -/
theorem C4_apply_failure_uncaught :
    patchHandler none sampleDb sampleDb "pkg:a"
        (.wellFormed [.test "status" (.jstr "Deprecated")]) "alice" 1 []
        (fun _ => .ok) =
      ⟨.uncaught, sampleDb, false, []⟩ ∧
    patchHandler none sampleDb sampleDb "pkg:a" .malformed "alice" 1 []
        (fun _ => .ok) =
      ⟨.badJsonPatch, sampleDb, false, []⟩ := by
  exact ⟨rfl, rfl⟩

/-- C9: the aggregate loader returns the NotFound signal (`None`) when the
root record does not exist; when the root exists, the load succeeds iff no
sub-load failed, and with failing sub-loads it fails with the first failing
sub-load's error, returning no partial aggregate. -/
theorem C9_aggregate_load (env : ProjectEnv) :
    (env.root = none → project env = .ok none) ∧
    (∀ v, env.root = some v →
      (subErrors env = [] → ∃ p, project env = .ok (some p)) ∧
      (∀ e rest, subErrors env = e :: rest →
        project env = .error e ∧ ∀ p, project env ≠ .ok (some p))) := by
  obtain ⟨root, ns, pt, fs, ls, us, ids, cs, ds⟩ := env
  constructor
  · intro hr
    have hroot : root = none := hr
    subst hroot
    rfl
  · intro v hr
    have hroot : root = some v := hr
    have hspec := project_spec root v ns pt fs ls us ids cs ds hroot
    refine ⟨hspec.1, ?_⟩
    intro e rest he
    have herr := hspec.2 e rest he
    refine ⟨herr, fun p hp => ?_⟩
    rw [herr] at hp
    cases hp

/-- Closed instance of C9: a failing namespace sub-load fails the whole
load with that error and yields no aggregate. -/
theorem C9_witness :
    project sampleEnv = .error "boom" ∧ ∀ p, project sampleEnv ≠ .ok (some p) :=
  ((C9_aggregate_load sampleEnv).2 ⟨1, 2, 3, "n", "s", 9⟩ rfl).2 "boom" [] rfl

/-! Further helper lemmas for the write stage. -/

theorem mem_runPatchSql (db : Db) (key : String) (u : Component)
    (user : String) (now : Nat) (r : Row)
    (hr : r ∈ runPatchSql db key u user now) :
    r ∈ db ∨ r = ⟨Component.dump u, now, some user⟩ := by
  unfold runPatchSql at hr
  obtain ⟨a, ha, hra⟩ := List.mem_map.1 hr
  by_cases h : rowKeyIs a key = true
  · rw [if_pos h] at hra
    exact Or.inr hra.symm
  · rw [if_neg h] at hra
    subst hra
    exact Or.inl ha

theorem patchHandler_db_write (cfg : Option Nat) (dbRead dbWrite : Db)
    (pkg : String) (ops : List PatchOp) (user : String) (now : Nat)
    (affected : List Nat) (score : Nat → ScoreResult)
    (row : Row) (o : Component) (ud : Dict) (u : Component)
    (h1 : getRow dbRead pkg = some row)
    (h2 : validateComponent row.value = .ok o)
    (h3 : applyPatch (Component.dump o) ops = some ud)
    (h4 : allEqCheck ud (Component.dump o) = .ok false)
    (h5 : validateComponent ud = .ok u)
    (hne : (dbWrite.filter (rowKeyIs · o.package_url)).isEmpty = false) :
    (patchHandler cfg dbRead dbWrite pkg (.wellFormed ops) user now affected
        score).db = runPatchSql dbWrite o.package_url u user now := by
  rw [patchHandler_write_stage cfg dbRead dbWrite pkg ops user now affected
    score row o ud u h1 h2 h3 h4 h5]
  rw [if_neg (by simp [hne])]
  cases hp : projectUpdateRequired cfg o u with
  | true =>
    cases hval : updateAffectedProjects affected score with
    | error att => rfl
    | ok att => rfl
  | false => rfl

theorem updateAffected_error_iff (rows : List Nat) (f : Nat → ScoreResult) :
    (∃ att, updateAffectedProjects rows f = .error att) ↔
      ∃ i ∈ rows.dedup, f i = .fatal := by
  rw [updateAffectedProjects_eq]
  by_cases hall : rows.dedup.all (fun i => f i != ScoreResult.fatal) = true
  · rw [if_pos hall]
    rw [List.all_eq_true] at hall
    constructor
    · rintro ⟨att, hatt⟩
      cases hatt
    · rintro ⟨i, hi, hf⟩
      have := hall i hi
      rw [hf] at this
      simp at this
  · rw [if_neg hall]
    rw [List.all_eq_true] at hall
    push_neg at hall
    obtain ⟨i, hi, hf⟩ := hall
    constructor
    · intro _
      refine ⟨i, hi, ?_⟩
      cases hfi : f i with
      | fatal => rfl
      | ok => rw [hfi] at hf; simp at hf
      | fkViolation => rw [hfi] at hf; simp at hf
    · intro _
      exact ⟨_, rfl⟩

/-- C5: a patch whose resulting snapshot fails component validation is
rejected with the first violation's detail and no write is issued (the
table state is unchanged); and across every execution of the handler, each
row of the post-state table is either a pre-existing row or the dump of a
snapshot that passes validation — an invalid snapshot is never persisted. -/
theorem C5_validation_guard :
    (∀ (cfg : Option Nat) (dbRead dbWrite : Db) (pkg : String)
        (ops : List PatchOp) (user : String) (now : Nat) (affected : List Nat)
        (score : Nat → ScoreResult) (row : Row) (o : Component) (ud : Dict)
        (errs : List String),
      getRow dbRead pkg = some row →
      validateComponent row.value = .ok o →
      applyPatch (Component.dump o) ops = some ud →
      allEqCheck ud (Component.dump o) = .ok false →
      validateComponent ud = .error errs →
      patchHandler cfg dbRead dbWrite pkg (.wellFormed ops) user now affected
          score =
        ⟨.invalidComponent (errs.headD ""), dbWrite, false, []⟩) ∧
    (∀ (cfg : Option Nat) (dbRead dbWrite : Db) (pkg : String)
        (body : PatchDoc) (user : String) (now : Nat) (affected : List Nat)
        (score : Nat → ScoreResult) (res : PatchResult) (r : Row),
      patchHandler cfg dbRead dbWrite pkg body user now affected score = res →
      r ∈ res.db →
      r ∈ dbWrite ∨
        ∃ u, r.value = Component.dump u ∧ validateComponent r.value = .ok u) := by
  constructor
  · intro cfg dbRead dbWrite pkg ops user now affected score row o ud errs
      h1 h2 h3 h4 h5
    exact patchHandler_invalid_stage cfg dbRead dbWrite pkg ops user now
      affected score row o ud errs h1 h2 h3 h4 h5
  · intro cfg dbRead dbWrite pkg body user now affected score res r heq hr
    unfold patchHandler at heq
    repeat' split at heq
    all_goals subst heq
    all_goals try exact Or.inl hr
    all_goals
      rcases mem_runPatchSql _ _ _ _ _ _ hr with hrr | hrr
      · exact Or.inl hrr
      · subst hrr
        exact Or.inr ⟨_, rfl, validate_dump _
          (validateComponent_matchesPkg _ _ (by assumption))⟩

/-- Closed instance of C5: a patch that replaces the status with an illegal
enum value is rejected with the first violation's detail and the table is
unchanged. -/
theorem C5_witness :
    patchHandler none sampleDb sampleDb "pkg:a"
        (.wellFormed [.replace "status" (.jstr "Bogus")]) "alice" 1 []
        (fun _ => .ok) =
      ⟨.invalidComponent "status: Input should be Active, Deprecated or Forbidden",
        sampleDb, false, []⟩ :=
  C5_validation_guard.1 none sampleDb sampleDb "pkg:a"
    [.replace "status" (.jstr "Bogus")] "alice" 1 [] (fun _ => .ok)
    ⟨Component.dump sampleComponent, 0, none⟩ sampleComponent
    (dset (Component.dump sampleComponent) "status" (.jstr "Bogus"))
    ["status: Input should be Active, Deprecated or Forbidden"]
    rfl rfl rfl rfl rfl

/-- C6: the conditional write is keyed by the original snapshot's
package_url — rows with other keys survive untouched, every row with the
original key is overwritten with the updated snapshot stamped with the
acting user and the current time (even when the patch changed the
identifier) — and when no row matches the original key the patch fails
with the database-error signal, leaving the table unchanged, with no
retry (the returned outcome is final). -/
theorem C6_conditional_write :
    ∀ (cfg : Option Nat) (dbRead dbWrite : Db) (pkg : String)
      (ops : List PatchOp) (user : String) (now : Nat) (affected : List Nat)
      (score : Nat → ScoreResult) (row : Row) (o : Component) (ud : Dict)
      (u : Component),
    getRow dbRead pkg = some row →
    validateComponent row.value = .ok o →
    applyPatch (Component.dump o) ops = some ud →
    allEqCheck ud (Component.dump o) = .ok false →
    validateComponent ud = .ok u →
    ((dbWrite.filter (rowKeyIs · o.package_url)).isEmpty = true →
      patchHandler cfg dbRead dbWrite pkg (.wellFormed ops) user now affected
          score =
        ⟨.databaseError, dbWrite, false, []⟩) ∧
    ((dbWrite.filter (rowKeyIs · o.package_url)).isEmpty = false →
      (patchHandler cfg dbRead dbWrite pkg (.wellFormed ops) user now affected
          score).db.length = dbWrite.length ∧
      ∀ r ∈ dbWrite,
        (rowKeyIs r o.package_url = false →
          r ∈ (patchHandler cfg dbRead dbWrite pkg (.wellFormed ops) user now
            affected score).db) ∧
        (rowKeyIs r o.package_url = true →
          (⟨Component.dump u, now, some user⟩ : Row) ∈
            (patchHandler cfg dbRead dbWrite pkg (.wellFormed ops) user now
              affected score).db)) := by
  intro cfg dbRead dbWrite pkg ops user now affected score row o ud u
    h1 h2 h3 h4 h5
  constructor
  · intro hz
    rw [patchHandler_write_stage cfg dbRead dbWrite pkg ops user now affected
      score row o ud u h1 h2 h3 h4 h5]
    rw [if_pos hz]
  · intro hne
    rw [patchHandler_db_write cfg dbRead dbWrite pkg ops user now affected
      score row o ud u h1 h2 h3 h4 h5 hne]
    refine ⟨by simp [runPatchSql], ?_⟩
    intro r hrmem
    constructor
    · intro hk
      have : (if rowKeyIs r o.package_url then
          (⟨Component.dump u, now, some user⟩ : Row) else r) ∈
          runPatchSql dbWrite o.package_url u user now :=
        List.mem_map_of_mem _ hrmem
      rwa [if_neg (by simp [hk])] at this
    · intro hk
      have : (if rowKeyIs r o.package_url then
          (⟨Component.dump u, now, some user⟩ : Row) else r) ∈
          runPatchSql dbWrite o.package_url u user now :=
        List.mem_map_of_mem _ hrmem
      rwa [if_pos hk] at this

/-- Closed instance of C6: a patch that renames pkg:a to pkg:b updates the
row keyed by the original identifier pkg:a, stamping the actor and time. -/
theorem C6_witness :
    patchHandler none sampleDb sampleDb "pkg:a"
        (.wellFormed [.replace "package_url" (.jstr "pkg:b")]) "alice" 7 []
        (fun _ => .ok) =
      ⟨.updated,
        [⟨Component.dump ⟨"pkg:b", "a", ComponentStatus.active, "i", none, none⟩,
          7, some "alice"⟩], false, []⟩ ∧
    (sampleDb.filter
      (rowKeyIs · sampleComponent.package_url)).isEmpty = false ∧
    ((patchHandler none sampleDb sampleDb "pkg:a"
        (.wellFormed [.replace "package_url" (.jstr "pkg:b")]) "alice" 7 []
        (fun _ => .ok)).db.length = sampleDb.length) := by
  refine ⟨rfl, rfl, ?_⟩
  have h := (C6_conditional_write none sampleDb sampleDb "pkg:a"
    [.replace "package_url" (.jstr "pkg:b")] "alice" 7 [] (fun _ => .ok)
    ⟨Component.dump sampleComponent, 0, none⟩ sampleComponent
    (dset (Component.dump sampleComponent) "package_url" (.jstr "pkg:b"))
    ⟨"pkg:b", "a", ComponentStatus.active, "i", none, none⟩
    rfl rfl rfl rfl rfl).2 rfl
  exact h.1

/-- C8 (amended): once the conditional write has committed, the stored
state reflects the update no matter how the cascade ends — the write is
never rolled back — but the response does not always report the committed
update: it is `updated` exactly when no fatal cascade failure occurred, and
a fatal fan-out failure propagates as a cascade failure in the response. -/
theorem C8_commit_permanent :
    ∀ (cfg : Option Nat) (dbRead dbWrite : Db) (pkg : String)
      (ops : List PatchOp) (user : String) (now : Nat) (affected : List Nat)
      (score : Nat → ScoreResult) (row : Row) (o : Component) (ud : Dict)
      (u : Component),
    getRow dbRead pkg = some row →
    validateComponent row.value = .ok o →
    applyPatch (Component.dump o) ops = some ud →
    allEqCheck ud (Component.dump o) = .ok false →
    validateComponent ud = .ok u →
    (dbWrite.filter (rowKeyIs · o.package_url)).isEmpty = false →
    (patchHandler cfg dbRead dbWrite pkg (.wellFormed ops) user now affected
        score).db = runPatchSql dbWrite o.package_url u user now ∧
    ((patchHandler cfg dbRead dbWrite pkg (.wellFormed ops) user now affected
        score).outcome = .updated ∨
      (patchHandler cfg dbRead dbWrite pkg (.wellFormed ops) user now affected
        score).outcome = .cascadeFailed) ∧
    ((patchHandler cfg dbRead dbWrite pkg (.wellFormed ops) user now affected
        score).outcome = .cascadeFailed ↔
      projectUpdateRequired cfg o u = true ∧
        ∃ i ∈ affected.dedup, score i = .fatal) := by
  intro cfg dbRead dbWrite pkg ops user now affected score row o ud u
    h1 h2 h3 h4 h5 hne
  have hstage := patchHandler_write_stage cfg dbRead dbWrite pkg ops user now
    affected score row o ud u h1 h2 h3 h4 h5
  refine ⟨patchHandler_db_write cfg dbRead dbWrite pkg ops user now affected
    score row o ud u h1 h2 h3 h4 h5 hne, ?_, ?_⟩
  · rw [hstage, if_neg (by simp [hne])]
    cases hp : projectUpdateRequired cfg o u with
    | true =>
      cases hval : updateAffectedProjects affected score with
      | error att => simp
      | ok att => simp
    | false => simp
  · rw [hstage, if_neg (by simp [hne])]
    cases hp : projectUpdateRequired cfg o u with
    | true =>
      cases hval : updateAffectedProjects affected score with
      | error att =>
        constructor
        · intro _
          exact ⟨rfl, (updateAffected_error_iff affected score).1 ⟨att, hval⟩⟩
        · intro _
          rfl
      | ok att =>
        constructor
        · intro hco
          simp at hco
        · rintro ⟨-, hfat⟩
          obtain ⟨att', hatt'⟩ := (updateAffected_error_iff affected score).2 hfat
          rw [hval] at hatt'
          cases hatt'
    | false =>
      constructor
      · intro hco
        simp at hco
      · rintro ⟨htrue, -⟩
        cases htrue

/-- Closed instance of C8 (amended) and counterexample to C8 as stated: a
fatal recomputation failure during the cascade makes the response report
the cascade failure, not the committed update, although the stored row
already carries the committed change. -/
theorem C8_counterexample :
    patchHandler (some 1) sampleDb sampleDb "pkg:a"
        (.wellFormed [.replace "status" (.jstr "Deprecated")]) "alice" 1 [7]
        (fun _ => .fatal) =
      ⟨.cascadeFailed, [⟨Component.dump sampleDeprecated, 1, some "alice"⟩],
        true, []⟩ ∧
    (⟨.cascadeFailed, [⟨Component.dump sampleDeprecated, 1, some "alice"⟩],
        true, []⟩ : PatchResult).outcome ≠ .updated := by
  exact ⟨rfl, by decide⟩

/-- Closed instance of C8 (amended) via the theorem: in the failing-cascade
execution the stored state still reflects the committed update. -/
theorem C8_witness :
    (patchHandler (some 1) sampleDb sampleDb "pkg:a"
        (.wellFormed [.replace "status" (.jstr "Deprecated")]) "alice" 1 [7]
        (fun _ => .fatal)).db =
      runPatchSql sampleDb "pkg:a" sampleDeprecated "alice" 1 ∧
    ((patchHandler (some 1) sampleDb sampleDb "pkg:a"
        (.wellFormed [.replace "status" (.jstr "Deprecated")]) "alice" 1 [7]
        (fun _ => .fatal)).outcome = .cascadeFailed ↔
      projectUpdateRequired (some 1) sampleComponent sampleDeprecated = true ∧
        ∃ i ∈ ([7] : List Nat).dedup, (fun _ => ScoreResult.fatal) i = .fatal) := by
  have h := C8_commit_permanent (some 1) sampleDb sampleDb "pkg:a"
    [.replace "status" (.jstr "Deprecated")] "alice" 1 [7]
    (fun _ => .fatal) ⟨Component.dump sampleComponent, 0, none⟩
    sampleComponent (dset (Component.dump sampleComponent) "status"
      (.jstr "Deprecated")) sampleDeprecated rfl rfl rfl rfl rfl rfl
  exact ⟨h.1, h.2.2⟩

/-- When a replace-only patch that does not touch the identifier has
committed, re-running the handler against the written state with the same
operation sequence and no concurrent change answers NotModified and writes
nothing. -/
theorem second_run_notModified (cfg : Option Nat) (db : Db) (pkg : String)
    (ops : List PatchOp) (user user₂ : String) (now now₂ : Nat)
    (affected₂ : List Nat) (score₂ : Nat → ScoreResult)
    (row : Row) (o : Component) (ud : Dict) (u : Component)
    (hro : ∀ op ∈ ops, isReplaceOp op = true)
    (hnp : "package_url" ∉ replacedKeys ops)
    (h1 : getRow db pkg = some row)
    (h2 : validateComponent row.value = .ok o)
    (h3 : applyPatch (Component.dump o) ops = some ud)
    (h5 : validateComponent ud = .ok u)
    (hne : ¬(db.filter (rowKeyIs · o.package_url)).isEmpty = true) :
    patchHandler cfg (runPatchSql db o.package_url u user now)
        (runPatchSql db o.package_url u user now) pkg (.wellFormed ops)
        user₂ now₂ affected₂ score₂ =
      ⟨.notModified, runPatchSql db o.package_url u user now, false, []⟩ := by
  have hne' : (db.filter (rowKeyIs · o.package_url)).isEmpty = false := by
    simpa using hne
  have hopkg : o.package_url = pkg :=
    original_key_eq pkg row o (getRow_key db pkg row h1) h2
  subst hopkg
  have hud_pkg : jlookup ud "package_url" = some (.jstr o.package_url) := by
    rw [jlookup_applyPatch_unreplaced ops (Component.dump o) ud "package_url"
      hro hnp h3]
    simp [Component.dump, jlookup]
  have hu_pkg : u.package_url = o.package_url := by
    have h' := jlookup_package_url_of_ok ud u h5
    rw [hud_pkg] at h'
    injection h' with h''
    injection h'' with h'''
    exact h'''.symm
  have hget2 : getRow (runPatchSql db o.package_url u user now) o.package_url =
      some ⟨Component.dump u, now, some user⟩ :=
    getRow_runPatchSql db o.package_url u user now hne' hu_pkg
  have hkeys : dkeys ud = dkeys (Component.dump u) := by
    rw [dkeys_applyPatch_replace ops (Component.dump o) ud hro h3]
    rfl
  have hdump_eq : ud = Component.dump u := canonical_eq_dump ud u h5 hkeys
  have happly2 : applyPatch (Component.dump u) ops = some (Component.dump u) := by
    rw [← hdump_eq]
    exact applyPatch_idem ops (Component.dump o) ud hro h3
  have hallEq : allEqCheck (Component.dump u) (Component.dump u) = .ok true :=
    allEqCheck_of_pointwise _ _ (dump_pointwise u)
  exact patchHandler_notModified_stage cfg _ _ o.package_url ops user₂ now₂
    affected₂ score₂ ⟨Component.dump u, now, some user⟩ u (Component.dump u)
    hget2 (validate_dump u (validateComponent_matchesPkg ud u h5)) happly2
    hallEq

/-- C1 (amended): (1) for every snapshot and operation sequence whose
application yields a result equal to the current snapshot field-by-field,
the handler answers NotModified and issues no write; (2) idempotence,
restricted to sequences of replace operations on fields other than the
identifier (the restriction the counterexample forces): if such a patch
commits an update, applying the same sequence again to the stored state
with no concurrent change answers NotModified and leaves the table
unchanged. -/
theorem C1_notModified_idempotent :
    (∀ (cfg : Option Nat) (dbRead dbWrite : Db) (pkg : String)
        (ops : List PatchOp) (user : String) (now : Nat)
        (affected : List Nat) (score : Nat → ScoreResult)
        (row : Row) (o : Component) (ud : Dict),
      getRow dbRead pkg = some row →
      validateComponent row.value = .ok o →
      applyPatch (Component.dump o) ops = some ud →
      (∀ k v, (k, v) ∈ ud → jlookup (Component.dump o) k = some v) →
      patchHandler cfg dbRead dbWrite pkg (.wellFormed ops) user now affected
          score =
        ⟨.notModified, dbWrite, false, []⟩) ∧
    (∀ (cfg : Option Nat) (db : Db) (pkg : String) (ops : List PatchOp)
        (user user₂ : String) (now now₂ : Nat)
        (affected affected₂ : List Nat) (score score₂ : Nat → ScoreResult)
        (res : PatchResult),
      (∀ op ∈ ops, isReplaceOp op = true) →
      "package_url" ∉ replacedKeys ops →
      patchHandler cfg db db pkg (.wellFormed ops) user now affected score = res →
      res.outcome = .updated →
      patchHandler cfg res.db res.db pkg (.wellFormed ops) user₂ now₂
          affected₂ score₂ =
        ⟨.notModified, res.db, false, []⟩) := by
  constructor
  · intro cfg dbRead dbWrite pkg ops user now affected score row o ud
      h1 h2 h3 hpt
    exact patchHandler_notModified_stage cfg dbRead dbWrite pkg ops user now
      affected score row o ud h1 h2 h3 (allEqCheck_of_pointwise ud _ hpt)
  · intro cfg db pkg ops user user₂ now now₂ affected affected₂ score score₂
      res hro hnp heq hout
    simp only [patchHandler] at heq
    repeat' split at heq
    all_goals subst heq
    all_goals try simp at hout
    all_goals
      exact second_run_notModified cfg db pkg ops user user₂ now now₂
        affected₂ score₂ _ _ _ _ hro hnp (by assumption) (by assumption)
        (by assumption) (by assumption) (by assumption)

/-- Closed instance of C1 (amended): an empty patch on the sample store is
NotModified; a committed replace of the name, re-applied to the written
state, is NotModified the second time. -/
theorem C1_witness :
    patchHandler none sampleDb sampleDb "pkg:a" (.wellFormed []) "alice" 1 []
        (fun _ => .ok) = ⟨.notModified, sampleDb, false, []⟩ ∧
    patchHandler none
        [⟨Component.dump ⟨"pkg:a", "b", ComponentStatus.active, "i", none, none⟩,
          1, some "alice"⟩]
        [⟨Component.dump ⟨"pkg:a", "b", ComponentStatus.active, "i", none, none⟩,
          1, some "alice"⟩] "pkg:a"
        (.wellFormed [.replace "name" (.jstr "b")]) "bob" 2 [] (fun _ => .ok) =
      ⟨.notModified,
        [⟨Component.dump ⟨"pkg:a", "b", ComponentStatus.active, "i", none, none⟩,
          1, some "alice"⟩], false, []⟩ := by
  constructor
  · exact C1_notModified_idempotent.1 none sampleDb sampleDb "pkg:a" []
      "alice" 1 [] (fun _ => .ok) ⟨Component.dump sampleComponent, 0, none⟩
      sampleComponent (Component.dump sampleComponent) rfl rfl rfl
      (dump_pointwise sampleComponent)
  · exact C1_notModified_idempotent.2 none sampleDb "pkg:a"
      [.replace "name" (.jstr "b")] "alice" "bob" 1 2 [] [] (fun _ => .ok)
      (fun _ => .ok)
      ⟨.updated, [⟨Component.dump ⟨"pkg:a", "b", ComponentStatus.active, "i",
        none, none⟩, 1, some "alice"⟩], false, []⟩
      (by decide) (by decide) rfl rfl

/-- Counterexample to C1 as stated: an operation sequence led by a test op
commits an update on its first application, but its second application to
the updated state, with no concurrent change, raises (uncaught) instead of
answering NotModified. -/
theorem C1_counterexample :
    (patchHandler none sampleDb sampleDb "pkg:a"
        (.wellFormed [.test "status" (.jstr "Active"),
          .replace "status" (.jstr "Deprecated")]) "alice" 1 []
        (fun _ => .ok)).outcome = .updated ∧
    (patchHandler none
        (patchHandler none sampleDb sampleDb "pkg:a"
          (.wellFormed [.test "status" (.jstr "Active"),
            .replace "status" (.jstr "Deprecated")]) "alice" 1 []
          (fun _ => .ok)).db
        (patchHandler none sampleDb sampleDb "pkg:a"
          (.wellFormed [.test "status" (.jstr "Active"),
            .replace "status" (.jstr "Deprecated")]) "alice" 1 []
          (fun _ => .ok)).db
        "pkg:a"
        (.wellFormed [.test "status" (.jstr "Active"),
          .replace "status" (.jstr "Deprecated")]) "bob" 2 []
        (fun _ => .ok)).outcome = .uncaught := by
  exact ⟨rfl, rfl⟩

/-! Pagination lemmas. -/

theorem componentsPage_eq (store : List String) (t : ComponentToken)
    (hsorted : store.Pairwise (· < ·)) :
    componentsPage store t =
      (store.filter (fun k => t.starting_package < k)).take t.limit := by
  unfold componentsPage
  congr 1
  apply List.Sorted.insertionSort_eq
  exact (hsorted.filter _).imp (fun h => le_of_lt h)

theorem sorted_not_lt_getLast (l : List String) (hs : l.Pairwise (· < ·)) :
    ∀ last, l.getLast? = some last → ∀ x ∈ l, ¬ last < x := by
  induction l with
  | nil =>
    intro last h
    cases h
  | cons y ys ih =>
    intro last hl x hx
    cases ys with
    | nil =>
      simp at hl hx
      subst hl
      subst hx
      exact lt_irrefl _
    | cons z zs =>
      rw [List.getLast?_cons_cons] at hl
      have hmem : last ∈ z :: zs := List.mem_of_getLast?_eq_some hl
      have hps := List.pairwise_cons.1 hs
      rcases List.mem_cons.1 hx with rfl | hx'
      · exact lt_asymm (hps.1 last hmem)
      · exact ih hps.2 last hl x hx'

theorem filter_gt_last (store : List String) (s last : String) (limit : Nat)
    (hsorted : store.Pairwise (· < ·))
    (hlast : ((store.filter (fun k => s < k)).take limit).getLast? = some last) :
    store.filter (fun k => last < k) =
      (store.filter (fun k => s < k)).drop limit := by
  have hlast_mem_take : last ∈ (store.filter (fun k => s < k)).take limit :=
    List.mem_of_getLast?_eq_some hlast
  have hlast_mem : last ∈ store.filter (fun k => s < k) :=
    List.mem_of_mem_take hlast_mem_take
  have hslast : s < last := by
    have hdec := List.of_mem_filter hlast_mem
    exact of_decide_eq_true hdec
  have hsplit := List.take_append_drop limit (store.filter (fun k => s < k))
  have hpw : ((store.filter (fun k => s < k)).take limit ++
      (store.filter (fun k => s < k)).drop limit).Pairwise (· < ·) := by
    rw [hsplit]
    exact hsorted.filter _
  have happ := List.pairwise_append.1 hpw
  have htake_none : ∀ x ∈ (store.filter (fun k => s < k)).take limit,
      ¬ last < x :=
    sorted_not_lt_getLast _ happ.1 last hlast
  have hdrop_all : ∀ b ∈ (store.filter (fun k => s < k)).drop limit, last < b :=
    fun b hb => happ.2.2 last hlast_mem_take b hb
  have h1 : store.filter (fun k => last < k) =
      store.filter (fun a => decide (last < a) && decide (s < a)) := by
    apply List.filter_congr
    intro a _
    by_cases hla : last < a
    · simp [hla, lt_trans hslast hla]
    · simp [hla]
  have h2 : store.filter (fun a => decide (last < a) && decide (s < a)) =
      (store.filter (fun k => s < k)).filter (fun k => last < k) :=
    (List.filter_filter _ _).symm
  have h3 : ((store.filter (fun k => s < k)).take limit).filter
      (fun k => last < k) = [] := by
    rw [List.filter_eq_nil_iff]
    intro a ha
    simpa using htake_none a ha
  have h4 : ((store.filter (fun k => s < k)).drop limit).filter
      (fun k => last < k) =
      (store.filter (fun k => s < k)).drop limit := by
    rw [List.filter_eq_self]
    intro a ha
    simpa using hdrop_all a ha
  calc store.filter (fun k => last < k)
      = store.filter (fun a => decide (last < a) && decide (s < a)) := h1
    _ = (store.filter (fun k => s < k)).filter (fun k => last < k) := h2
    _ = ((store.filter (fun k => s < k)).take limit ++
          (store.filter (fun k => s < k)).drop limit).filter
          (fun k => last < k) := by rw [hsplit]
    _ = ((store.filter (fun k => s < k)).take limit).filter (fun k => last < k)
        ++ ((store.filter (fun k => s < k)).drop limit).filter
          (fun k => last < k) := List.filter_append _ _
    _ = (store.filter (fun k => s < k)).drop limit := by
        rw [h3, h4, List.nil_append]

theorem componentsPage_mk_eq (store : List String) (s : String) (limit : Nat)
    (hsorted : store.Pairwise (· < ·)) :
    componentsPage store ⟨s, limit⟩ =
      (store.filter (fun k => s < k)).take limit :=
  componentsPage_eq store ⟨s, limit⟩ hsorted

theorem listComponents_none (store : List String) (s : String) (limit : Nat)
    (hsorted : store.Pairwise (· < ·))
    (hnil : (store.filter (fun k => s < k)).take limit = []) :
    listComponents store ⟨s, limit⟩ = ([], none) := by
  unfold listComponents
  rw [componentsPage_mk_eq store s limit hsorted, hnil]
  simp

theorem listComponents_full (store : List String) (s last : String) (limit : Nat)
    (hsorted : store.Pairwise (· < ·))
    (hl : ((store.filter (fun k => s < k)).take limit).getLast? = some last)
    (hlen : ((store.filter (fun k => s < k)).take limit).length = limit) :
    listComponents store ⟨s, limit⟩ =
      ((store.filter (fun k => s < k)).take limit, some ⟨last, limit⟩) := by
  unfold listComponents
  rw [componentsPage_mk_eq store s limit hsorted]
  simp only [hl, hlen, ComponentToken.with_first]
  simp

theorem listComponents_short (store : List String) (s last : String) (limit : Nat)
    (hsorted : store.Pairwise (· < ·))
    (hl : ((store.filter (fun k => s < k)).take limit).getLast? = some last)
    (hlen : ¬((store.filter (fun k => s < k)).take limit).length = limit) :
    listComponents store ⟨s, limit⟩ =
      ((store.filter (fun k => s < k)).take limit, none) := by
  unfold listComponents
  rw [componentsPage_mk_eq store s limit hsorted]
  simp only [hl, hlen, if_false]

theorem allPages_eq (store : List String) (limit : Nat) (hlim : 0 < limit)
    (hsorted : store.Pairwise (· < ·)) :
    ∀ (fuel : Nat) (s : String),
      (store.filter (fun k => s < k)).length < fuel →
      allPages store fuel ⟨s, limit⟩ = store.filter (fun k => s < k) := by
  intro fuel
  induction fuel with
  | zero =>
    intro s h
    exact absurd h (Nat.not_lt_zero _)
  | succ n ih =>
    intro s hfuel
    rcases hl : ((store.filter (fun k => s < k)).take limit).getLast?
      with _ | last
    · have hnil : (store.filter (fun k => s < k)).take limit = [] := by
        rwa [List.getLast?_eq_none_iff] at hl
      have hF : store.filter (fun k => s < k) = [] := by
        rcases List.take_eq_nil_iff.1 hnil with h0 | h
        · omega
        · exact h
      simp only [allPages]
      rw [listComponents_none store s limit hsorted hnil, hF]
    · by_cases hlen : ((store.filter (fun k => s < k)).take limit).length = limit
      · have hkey := filter_gt_last store s last limit hsorted hl
        have hmin := List.length_take limit (store.filter (fun k => s < k))
        have hlim_le : limit ≤ (store.filter (fun k => s < k)).length := by
          rw [hlen] at hmin
          omega
        have hdl := List.length_drop limit (store.filter (fun k => s < k))
        have hrec := ih last (by rw [hkey]; omega)
        simp only [allPages]
        rw [listComponents_full store s last limit hsorted hl hlen]
        show (store.filter (fun k => s < k)).take limit ++
          allPages store n ⟨last, limit⟩ = store.filter (fun k => s < k)
        rw [hrec, hkey]
        exact List.take_append_drop limit _
      · have hlt : (store.filter (fun k => s < k)).length < limit := by
          have hmin := List.length_take limit (store.filter (fun k => s < k))
          omega
        have htake : (store.filter (fun k => s < k)).take limit =
            store.filter (fun k => s < k) :=
          List.take_of_length_le (le_of_lt hlt)
        simp only [allPages]
        rw [listComponents_short store s last limit hsorted hl hlen, htake]

/-! Concrete pagination fixtures (string comparisons are settled on the
underlying character lists, where the order is decidable by evaluation). -/

/-- The four-element sample store is strictly sorted. -/
theorem sampleStore_sorted :
    (["a", "b", "c", "d"] : List String).Pairwise (· < ·) := by
  simp
  exact ⟨⟨by decide, by decide, by decide⟩, ⟨by decide, by decide⟩, by decide⟩

/-- Every key of the sample store is above the empty starting key. -/
theorem sampleStore_keys : ∀ k ∈ (["a", "b", "c", "d"] : List String), "" < k := by
  simp
  exact ⟨by decide, by decide, by decide, by decide⟩

/-- Filtering the sample store above the empty key keeps everything. -/
theorem sampleStore_filter_empty :
    (["a", "b", "c", "d"] : List String).filter (fun k => "" < k) =
      ["a", "b", "c", "d"] :=
  List.filter_eq_self.2 (fun a ha => decide_eq_true (sampleStore_keys a ha))

/-- Filtering the sample store above b keeps c and d. -/
theorem sampleStore_filter_b :
    (["a", "b", "c", "d"] : List String).filter (fun k => "b" < k) =
      ["c", "d"] := by
  have h1 : ¬ (['b'] : List Char) < ['a'] := by decide
  have h2 : ¬ (['b'] : List Char) < ['b'] := by decide
  have h3 : (['b'] : List Char) < ['c'] := by decide
  have h4 : (['b'] : List Char) < ['d'] := by decide
  simp [List.filter_cons, h1, h2, h3, h4]

/-- Filtering the sample store above d keeps nothing. -/
theorem sampleStore_filter_d :
    (["a", "b", "c", "d"] : List String).filter (fun k => "d" < k) = [] := by
  have h1 : ¬ (['d'] : List Char) < ['a'] := by decide
  have h2 : ¬ (['d'] : List Char) < ['b'] := by decide
  have h3 : ¬ (['d'] : List Char) < ['c'] := by decide
  have h4 : ¬ (['d'] : List Char) < ['d'] := by decide
  simp [List.filter_cons, h1, h2, h3, h4]

/-- C2 (amended): over a fixed snapshot with strictly increasing, nonempty
keys, feeding each returned token into the next request concatenates the
pages to exactly the full ordered collection — no duplicate, no omission —
and each derived token substitutes the last row package_url while keeping
the other token fields (the limit; also the project id for the
project-scoped token). A full page always carries a token, so the
four-element store at page size 2 ends with a token on the second page and
a third, empty page — not with a missing token on page two. -/
theorem C2_pagination (store : List String) (limit fuel : Nat)
    (hlim : 0 < limit) (hsorted : store.Pairwise (· < ·))
    (hne : ∀ k ∈ store, "" < k) (hfuel : store.length < fuel) :
    allPages store fuel ⟨"", limit⟩ = store ∧
    (allPages store fuel ⟨"", limit⟩).Nodup ∧
    (∀ (t : ComponentToken) (pkg : String), t.with_first pkg = ⟨pkg, t.limit⟩) ∧
    (∀ (t : ProjectComponentsToken) (pkg : String),
      t.with_first pkg = ⟨pkg, t.project_id, t.limit⟩) := by
  have hfilter : store.filter (fun k => "" < k) = store :=
    List.filter_eq_self.2 (fun a ha => decide_eq_true (hne a ha))
  have hmain := allPages_eq store limit hlim hsorted fuel ""
    (by rw [hfilter]; exact hfuel)
  rw [hfilter] at hmain
  refine ⟨hmain, ?_, fun t pkg => rfl, fun t pkg => rfl⟩
  rw [hmain]
  exact hsorted.imp ne_of_lt

/-- Closed instance of C2 (amended): the four-element store pages as
[a,b] with token b, and the derived token keeps the limit. -/
theorem C2_witness :
    allPages ["a", "b", "c", "d"] 5 ⟨"", 2⟩ = ["a", "b", "c", "d"] ∧
    listComponents ["a", "b", "c", "d"] ⟨"", 2⟩ = (["a", "b"], some ⟨"b", 2⟩) ∧
    (⟨"b", 2⟩ : ComponentToken).with_first "z" = ⟨"z", 2⟩ := by
  refine ⟨(C2_pagination ["a", "b", "c", "d"] 2 5 (by decide) sampleStore_sorted
    sampleStore_keys (by decide)).1, ?_,
    (C2_pagination ["a", "b", "c", "d"] 2 5 (by decide) sampleStore_sorted
      sampleStore_keys (by decide)).2.2.1 ⟨"b", 2⟩ "z"⟩
  have h := listComponents_full ["a", "b", "c", "d"] "" "b" 2 sampleStore_sorted
    (by rw [sampleStore_filter_empty]; exact rfl)
    (by rw [sampleStore_filter_empty]; exact rfl)
  rw [h, sampleStore_filter_empty]
  exact rfl

/-- Counterexample to C2 scenario as stated: listing a,b,c,d at page
size 2 gives the second page [c,d] WITH a token (for d); the end of the
collection is signalled by the third, empty page. -/
theorem C2_counterexample :
    listComponents ["a", "b", "c", "d"] ⟨"b", 2⟩ = (["c", "d"], some ⟨"d", 2⟩) ∧
    (listComponents ["a", "b", "c", "d"] ⟨"b", 2⟩).2 ≠ none ∧
    listComponents ["a", "b", "c", "d"] ⟨"d", 2⟩ = ([], none) := by
  have hb : listComponents ["a", "b", "c", "d"] ⟨"b", 2⟩ =
      (["c", "d"], some ⟨"d", 2⟩) := by
    have h := listComponents_full ["a", "b", "c", "d"] "b" "d" 2
      sampleStore_sorted (by rw [sampleStore_filter_b]; exact rfl)
      (by rw [sampleStore_filter_b]; exact rfl)
    rw [h, sampleStore_filter_b]
    exact rfl
  have hd := listComponents_none ["a", "b", "c", "d"] "d" 2 sampleStore_sorted
    (by rw [sampleStore_filter_d]; exact rfl)
  refine ⟨hb, ?_, hd⟩
  rw [hb]
  simp

end Imbi
